import Mathlib

/-!
Shallow embedding of the `http-proxy` sources (`src/main.rs`, `src/cache.rs`)
and proofs about the specification's claims.

Conventions:
* time is measured in whole seconds (`Nat`), modelling the monotone clock
  (`tokio::time::Instant`) with `Duration::as_secs`;
* HTTP bodies are byte lists (`List Nat`);
* header maps are association lists of lowercase header names to values,
  modelling `http::HeaderMap` (whose keys are lowercase `HeaderName`s);
* machine integers that never overflow in the modelled paths are `Nat`.
-/

namespace HttpProxy

abbrev Time := Nat
abbrev Bytes := List Nat
abbrev Headers := List (String × String)

/-! ## cache.rs -/

/-- `CachedResponse` (cache.rs:34-39): a frozen response snapshot. -/
structure CachedResponse where
  cached_at : Time
  bytes : Bytes
  headers : Headers
  statuscode : Nat
deriving Repr, DecidableEq

/-- One cache namespace: the contents of an `AHashMap<String, CachedResponse>`,
as an association list with at most one entry per key. -/
abbrev CacheMap := List (String × CachedResponse)

/-- Lookup in a cache namespace (`AHashMap::get`). -/
def mapGet (m : CacheMap) (k : String) : Option CachedResponse :=
  match m with
  | [] => none
  | (k', v) :: rest => if k' = k then some v else mapGet rest k

/-- Overwriting insertion in a cache namespace (`AHashMap::insert`). -/
def mapInsert (m : CacheMap) (k : String) (v : CachedResponse) : CacheMap :=
  (k, v) :: m.filter (fun p => p.1 != k)

/-- `Cache` (cache.rs:56-59): two namespaces, `users` and `invites`. -/
structure Cache where
  users : CacheMap
  invites : CacheMap
deriving Repr, DecidableEq

/-- Free function `get` (cache.rs:133-147): a hit requires presence and
`(now - cached_at).as_secs() < CACHE_DURATION`. -/
def cache_get (m : CacheMap) (key : String) (now dur : Time) :
    Option (Bytes × Headers × Nat) :=
  match mapGet m key with
  | some cached =>
    if now - cached.cached_at < dur then
      some (cached.bytes, cached.headers, cached.statuscode)
    else none
  | none => none

/-- Free function `insert` (cache.rs:149-160); `CachedResponse::new` stamps
`cached_at` with the current instant (`now`). -/
def cache_insert (m : CacheMap) (key : String) (value : Bytes) (headers : Headers)
    (statuscode : Nat) (now : Time) : CacheMap :=
  mapInsert m key ⟨now, value, headers, statuscode⟩

/-- `Cache::insert_user` (cache.rs:73-83). -/
def Cache.insert_user (c : Cache) (key : String) (value : Bytes) (headers : Headers)
    (statuscode : Nat) (now : Time) : Cache :=
  { c with users := cache_insert c.users key value headers statuscode now }

/-- `Cache::insert_invite` (cache.rs:85-95). -/
def Cache.insert_invite (c : Cache) (key : String) (value : Bytes) (headers : Headers)
    (statuscode : Nat) (now : Time) : Cache :=
  { c with invites := cache_insert c.invites key value headers statuscode now }

/-- `Cache::get_user` (cache.rs:97-99): reads the `users` namespace. -/
def Cache.get_user (c : Cache) (key : String) (now dur : Time) :
    Option (Bytes × Headers × Nat) :=
  cache_get c.users key now dur

/-- `Cache::get_invite` (cache.rs:101-103): the source reads `self.users`
(`get(&self.users, key)`), not `self.invites`. -/
def Cache.get_invite (c : Cache) (key : String) (now dur : Time) :
    Option (Bytes × Headers × Nat) :=
  cache_get c.users key now dur

/-- `clean_cache` (cache.rs:127-131): the reaper's per-namespace sweep. -/
def clean_cache (m : CacheMap) (now dur : Time) : CacheMap :=
  m.filter (fun p => now - p.2.cached_at < dur)

/-! ## Header-map operations (`http::HeaderMap`) -/

/-- `HeaderMap::remove`: drops every value stored under the name. -/
def hmRemove (k : String) (h : Headers) : Headers :=
  h.filter (fun p => p.1 != k)

/-- `HeaderMap::insert`: replaces all previous values of the name by one value. -/
def hmInsert (k v : String) (h : Headers) : Headers :=
  (k, v) :: hmRemove k h

/-- First value stored under a name (`HeaderMap::get`). -/
def hmGet (k : String) (h : Headers) : Option String :=
  (h.find? (fun p => p.1 == k)).map (fun p => p.2)

/-- All values stored under a name, in order. -/
def hmAll (k : String) (h : Headers) : Headers :=
  h.filter (fun p => p.1 == k)

/-- Replay of an owned `HeaderMap` through `Response::builder` (main.rs:374-379):
`HeaderMap`'s owning iterator yields `(Some name, value)` for the first value of
each name and `(None, value)` for the following ones, and the loop skips the
`None` entries; so one value per name survives, in first-occurrence order.
`seen` accumulates the names already replayed. -/
def replayAux (seen : List String) : Headers → Headers
  | [] => []
  | (k, v) :: rest =>
    if seen.contains k then replayAux seen rest
    else (k, v) :: replayAux (k :: seen) rest

/-- See `replayAux`. -/
def replayHeaders (h : Headers) : Headers :=
  replayAux [] h

/-! ## normalize_path (main.rs:299-314) -/

/-- `str::strip_prefix` on character lists. -/
def stripPre : List Char → List Char → Option (List Char)
  | [], s => some s
  | _ :: _, [] => none
  | p :: ps, c :: cs => if p = c then stripPre ps cs else none

/-- `str::split(sep)` on character lists: fields between separators,
including empty ones (`"".split(sep)` yields one empty field). -/
def splitChar (sep : Char) : List Char → List (List Char)
  | [] => [[]]
  | c :: cs =>
    if c = sep then [] :: splitChar sep cs
    else
      match splitChar sep cs with
      | f :: rest => (c :: f) :: rest
      | [] => [[c]]

/-- Numeric value of a digit string. -/
def digitsVal (s : List Char) : Nat :=
  s.foldl (fun acc c => acc * 10 + (c.toNat - 48)) 0

/-- `str::parse::<u8>().is_ok()`: an optional leading `+`, then a nonempty
run of ASCII digits whose value fits in `u8` (the step-by-step overflow check
succeeds exactly when the final value does, since prefixes of a digit string
never exceed its value). -/
def parse_u8_ok (s : List Char) : Bool :=
  match s with
  | [] => false
  | c :: rest =>
    if c = '+' then !rest.isEmpty && rest.all Char.isDigit && digitsVal rest ≤ 255
    else s.all Char.isDigit && digitsVal s ≤ 255

/-- `normalize_path` (main.rs:299-314) on character lists. All paths sliced by
the versioned branch are ASCII up to the slice point, so character indexing
agrees with the source's byte indexing. -/
def normalize_pathL (request_path : List Char) : List Char × List Char :=
  match stripPre "/api".data request_path with
  | some trimmed_path =>
    match (splitChar '/' trimmed_path).get? 1 with
    | some seg =>
      -- `maybe_api_version.strip_prefix('v')` succeeds iff the segment's
      -- first character is `v`; `version_number` is the remainder
      match seg with
      | c :: version_number =>
        if c = 'v' && parse_u8_ok version_number then
          let len := 6 + version_number.length
          (request_path.take len, request_path.drop len)
        else ("/api".data, trimmed_path)
      | [] => ("/api".data, trimmed_path)
    | none => ("/api".data, trimmed_path)
  | none => ("/api".data, request_path)

/-- `normalize_path` on `String`s. -/
def normalize_path (request_path : String) : String × String :=
  let r := normalize_pathL request_path.data
  (⟨r.1⟩, ⟨r.2⟩)

/-! ## Request pipeline (main.rs) -/

/-- `str::contains(pat)`: substring containment on the underlying characters. -/
def containsSub (hay needle : List Char) : Bool :=
  match hay with
  | [] => needle.isEmpty
  | _ :: rest => (needle.isPrefixOf hay) || containsSub rest needle

/-- `api_route.contains("@me")` (main.rs:363, 484). -/
def strContains (s pat : String) : Bool :=
  containsSub s.data pat.data

/-- Inbound HTTP methods (`http::Method`); `Extension` covers every
non-standard method token. -/
inductive HttpMethod where
  | DELETE | GET | PATCH | POST | PUT | OPTIONS | HEAD | TRACE | CONNECT
  | Extension (s : String)
deriving Repr, DecidableEq

/-- `twilight_http_ratelimiting::Method`. -/
inductive Method where
  | delete | get | patch | post | put
deriving Repr, DecidableEq

/-- The method mapping of main.rs:325-337: the five supported methods map to
the ratelimiter's `Method`; every other method is rejected. -/
def methodMap : HttpMethod → Option Method
  | .DELETE => some .delete
  | .GET => some .get
  | .PATCH => some .patch
  | .POST => some .post
  | .PUT => some .put
  | _ => none

/-- `twilight_http_ratelimiting::Path`, restricted to the variants the pipeline
inspects by name (main.rs:361-369, 481-490); `OtherPath` stands for the other
roughly seventy variants, which the pipeline treats uniformly via `_` arms. -/
inductive Path where
  | InvitesCode
  | UsersId
  | OtherPath (tag : Nat)
deriving Repr, DecidableEq

/-- `error::RequestError` variants, as used in main.rs. -/
inductive RequestError where
  | InvalidMethod
  | InvalidPath
  | AcquiringTicket
  | InvalidURI
  | RequestIssue
deriving Repr, DecidableEq

/-- An inbound request, as the pipeline reads it: method, URI path, optional
URI query, headers, body. -/
structure HRequest where
  method : HttpMethod
  path : String
  query : Option String
  headers : Headers
  body : Bytes
deriving Repr, DecidableEq

/-- A response as returned to the client. -/
structure HResponse where
  status : Nat
  headers : Headers
  body : Bytes
deriving Repr, DecidableEq

/-- The upstream response observed by the pipeline. -/
structure UpstreamResp where
  status : Nat
  headers : Headers
  body : Bytes
deriving Repr, DecidableEq

/-- The rewritten request issued to the upstream. -/
structure OutRequest where
  method : Method
  uri : String
  headers : Headers
  body : Bytes
deriving Repr, DecidableEq

/-- Outcomes of the external collaborators the pipeline calls into, fixed per
request: `Path::try_from` (the classifier of the ratelimiting crate),
`Ratelimiter::wait_for_ticket`, `Uri::from_str`, `Client::request`,
`hyper::body::to_bytes`, and `RatelimitHeaders::from_pairs(..).ok()`. -/
structure Env where
  classify : Method → String → Except Unit Path
  ticket : Except Unit Unit
  uriParses : Bool
  response : Except Unit UpstreamResp
  bodyReadOk : Bool
  parseRL : Headers → Option Unit

/-- The observable outcome of one `handle_request` run. `ticketRequested`
records that `wait_for_ticket` was called; `upstream` is the rewritten request
issued to the upstream, if any; `ticketSignal` is the completion signal the
ratelimiter observes for the acquired ticket — `some v` after an explicit
`header_sender.headers(v)` call, and `some none` when the sender is dropped on
an early-return path, which the ratelimiter observes as a completion without
headers (the closed channel); `none` when no ticket was ever issued. -/
structure HandleResult where
  result : Except RequestError HResponse
  cache : Cache
  ticketRequested : Bool
  upstream : Option OutRequest
  ticketSignal : Option (Option Unit)

/-- `resp.status().is_success() || resp.status() == 404` (main.rs:470). -/
def goodStatus (s : Nat) : Bool :=
  (decide (200 ≤ s) && decide (s < 300)) || s == 404

/-- The four bucket-bookkeeping removals before insertion (main.rs:476-479). -/
def stripRL (h : Headers) : Headers :=
  hmRemove "x-ratelimit-reset-after"
    (hmRemove "x-ratelimit-reset"
      (hmRemove "x-ratelimit-remaining"
        (hmRemove "x-ratelimit-bucket" h)))

/-- `(api_path, trimmed_path) = normalize_path(..)`; `api_route = api_path +
trimmed_path` (main.rs:341, 358). -/
def apiRouteOf (request : HRequest) : String :=
  (normalize_path request.path).1 ++ (normalize_path request.path).2

/-- The optional `?query` suffix of the upstream URI (main.rs:415-418). -/
def queryPart : Option String → String
  | some q => "?" ++ q
  | none => ""

/-- Header rewrite of main.rs:396-411: overwrite `authorization` with the
effective bearer, overwrite `host` with the upstream host, then remove the
hop-by-hop and upgrade headers. -/
def rewriteHeaders (token : String) (h : Headers) : Headers :=
  hmRemove "upgrade"
    (hmRemove "transfer-encoding"
      (hmRemove "proxy-connection"
        (hmRemove "keep-alive"
          (hmRemove "connection"
            (hmInsert "host" "discord.com"
              (hmInsert "authorization" token h))))))

/-- The rewritten upstream request (main.rs:396-427): same method and body,
rewritten headers, URI `https://discord.com` + canonical route + query. -/
def mkOutReq (token : String) (request : HRequest) (method : Method)
    (api_route : String) : OutRequest :=
  { method := method
    uri := "https://discord.com" ++ api_route ++ queryPart request.query
    headers := rewriteHeaders token request.headers
    body := request.body }

/-- The cache read-through match of main.rs:361-369: invites and non-`@me`
users routes are looked up, every other route yields no cached reply. -/
def cachedLookup (path : Path) (cache : Cache) (api_route : String)
    (now dur : Time) : Option (Bytes × Headers × Nat) :=
  match path with
  | .InvitesCode => cache.get_invite api_route now dur
  | .UsersId =>
    if strContains api_route "@me" then none
    else cache.get_user api_route now dur
  | .OtherPath _ => none

/-- The cache write-through match of main.rs:481-490, applied to the stripped
header clone; every route other than `InvitesCode`/non-`@me` `UsersId` leaves
the cache unchanged. -/
def cacheWrite (path : Path) (api_route : String) (resp : UpstreamResp)
    (cache : Cache) (now : Time) : Cache :=
  match path with
  | .InvitesCode =>
    { cache with
      invites := cache_insert cache.invites api_route resp.body
        (stripRL resp.headers) resp.status now }
  | .UsersId =>
    if strContains api_route "@me" then cache
    else
      { cache with
        users := cache_insert cache.users api_route resp.body
          (stripRL resp.headers) resp.status now }
  | .OtherPath _ => cache

/-- The pipeline from the header rewrite onwards (main.rs:396-501), entered
after a ticket was acquired. On the two early-return error paths
(`InvalidURI`, transport `RequestIssue`) the ticket sender is dropped, which
delivers the no-headers completion signal (`some none`). -/
def phase_forward (token : String) (request : HRequest) (method : Method)
    (path : Path) (api_route : String) (cache : Cache) (env : Env)
    (now dur : Time) : HandleResult :=
  let outReq := mkOutReq token request method api_route
  if env.uriParses then
    match env.response with
    | .error _ =>
      -- main.rs:432-438: `return Err(RequestIssue)`; dropping `header_sender`
      -- closes the channel, observed by the ratelimiter as a no-headers report
      ⟨.error .RequestIssue, cache, true, some outReq, some none⟩
    | .ok resp =>
      -- main.rs:440-449: `header_sender.headers(ratelimit_headers)`
      let signal := some (env.parseRL resp.headers)
      if goodStatus resp.status then
        if env.bodyReadOk then
          -- main.rs:491: reply from the buffered bytes and the pre-strip parts
          ⟨.ok ⟨resp.status, resp.headers, resp.body⟩,
            cacheWrite path api_route resp cache now, true, some outReq, signal⟩
        else
          -- main.rs:493-496: body read failure after the report
          ⟨.error .RequestIssue, cache, true, some outReq, signal⟩
      else
        -- main.rs:500: non-cacheable status is returned as-is
        ⟨.ok ⟨resp.status, resp.headers, resp.body⟩, cache, true,
          some outReq, signal⟩
  else
    -- main.rs:420-426: `return Err(InvalidURI)`; sender dropped as above
    ⟨.error .InvalidURI, cache, true, none, some none⟩

/-- `handle_request` (main.rs:316-501). The cache-hit reply (main.rs:371-386)
always succeeds: the builder is fed already-validated header names and values,
so `builder.body(..)` cannot fail there. -/
def handle_request (token : String) (request : HRequest) (cache : Cache)
    (env : Env) (now dur : Time) : HandleResult :=
  match methodMap request.method with
  | none => ⟨.error .InvalidMethod, cache, false, none, none⟩
  | some method =>
    let np := normalize_path request.path
    match env.classify method np.2 with
    | .error _ => ⟨.error .InvalidPath, cache, false, none, none⟩
    | .ok path =>
      let api_route := np.1 ++ np.2
      let cached_reply := cachedLookup path cache api_route now dur
      match cached_reply with
      | some (bytes, headers, statuscode) =>
        ⟨.ok ⟨statuscode, replayHeaders headers, bytes⟩, cache, false, none, none⟩
      | none =>
        match env.ticket with
        | .error _ => ⟨.error .AcquiringTicket, cache, true, none, none⟩
        | .ok _ => phase_forward token request method path api_route cache env now dur

/-! ## Service dispatch (main.rs:172-184) and proxy-owned endpoints -/

/-- Where the service sends one request. -/
inductive Dispatch where
  | metrics | health | forward
deriving Repr, DecidableEq

/-- The service closure of main.rs:172-184 matches on `incoming.uri().path()`
alone; the `/metrics` arm exists only when the `expose-metrics` feature is
compiled in. -/
def serve (metricsEnabled : Bool) (request : HRequest) : Dispatch :=
  if metricsEnabled && request.path == "/metrics" then .metrics
  else if request.path == "/health" then .health
  else .forward

/-- ASCII bytes of a literal body. -/
def strBytes (s : String) : Bytes :=
  s.data.map Char.toNat

/-- `handle_health` (main.rs:527-531): `Response::builder()` defaults to
status 200 and no headers; body `Proxy running!`. -/
def handle_health : HResponse :=
  ⟨200, [], strBytes "Proxy running!"⟩

/-- Whether a path segment is recognised by the versioned-prefix branch of
`normalize_path`: it starts with `v` and the remainder parses as a `u8`. -/
def segIsVersion : List Char → Bool
  | [] => false
  | c :: nn => c = 'v' && parse_u8_ok nn

/-- The four per-bucket rate-limit bookkeeping header names. -/
def bucketNames : List String :=
  ["x-ratelimit-bucket", "x-ratelimit-remaining", "x-ratelimit-reset",
    "x-ratelimit-reset-after"]

/-- A header map free of all four bucket-bookkeeping headers. -/
def noBucketHeaders (h : Headers) : Bool :=
  h.all (fun p => !(bucketNames.contains p.1))

/-- Every entry stored in either cache namespace has bucket-free headers. -/
def noBucketCache (c : Cache) : Bool :=
  c.users.all (fun e => noBucketHeaders e.2.headers) &&
    c.invites.all (fun e => noBucketHeaders e.2.headers)

/-- No key of the `users` namespace contains the substring `@me`. -/
def usersKeysClean (c : Cache) : Bool :=
  c.users.all (fun e => !(strContains e.1 "@me"))

/-! ## Concrete inputs used by witness theorems -/

/-- An upstream response carrying a bucket-bookkeeping header. -/
def wResp : UpstreamResp :=
  ⟨200, [("x-ratelimit-bucket", "abc"), ("content-type", "application/json")], [1, 2]⟩

/-- A benign environment: unknown route, ticket granted, upstream `200`. -/
def wEnvBase : Env :=
  ⟨fun _ _ => .ok (.OtherPath 0), .ok (), true, .ok wResp, true, fun _ => none⟩

/-- Environment whose upstream call fails at the transport level. -/
def wEnvErr : Env :=
  { wEnvBase with response := .error () }

/-- Environment classifying every request as `UsersId`. -/
def wEnvUsers : Env :=
  { wEnvBase with classify := fun _ _ => .ok .UsersId }

/-- Environment classifying every request as `InvitesCode`. -/
def wEnvInv : Env :=
  { wEnvBase with classify := fun _ _ => .ok .InvitesCode }

/-- A `GET /x` request with one hop-by-hop and one ordinary header. -/
def wReqC9 : HRequest :=
  ⟨.GET, "/x", some "a=1", [("connection", "close"), ("x-foo", "bar")], [9]⟩

/-- The upstream request the pipeline builds for `wReqC9`. -/
def wOut : OutRequest :=
  mkOutReq "Bot T" wReqC9 .get "/api/x"

/-- An `OPTIONS` request (unsupported method). -/
def wReqOpt : HRequest :=
  ⟨.OPTIONS, "/api/v10/guilds/1", none, [], []⟩

/-- A `GET /api/v9/users/111` request. -/
def wReqUser : HRequest :=
  ⟨.GET, "/api/v9/users/111", none, [], []⟩

/-- A cache holding one fresh entry for `wReqUser`'s canonical route. -/
def wCacheUser : Cache :=
  ⟨[("/api/v9/users/111", ⟨0, [7], [("a", "b")], 200⟩)], []⟩

/-! ## Supporting lemmas -/

theorem stripPre_append (xs ys : List Char) : stripPre xs (xs ++ ys) = some ys := by
  induction xs with
  | nil => rfl
  | cons x xs ih => simp [stripPre, ih]

theorem splitChar_no_sep (sep : Char) (ys : List Char) (h : ∀ c ∈ ys, c ≠ sep) :
    splitChar sep ys = [ys] := by
  induction ys with
  | nil => rfl
  | cons c cs ih =>
    have hc : c ≠ sep := h c (List.mem_cons_self c cs)
    have ih' := ih (fun d hd => h d (List.mem_cons_of_mem c hd))
    simp [splitChar, hc, ih']

theorem splitChar_append_sep (sep : Char) (ys r : List Char)
    (h : ∀ c ∈ ys, c ≠ sep) :
    splitChar sep (ys ++ sep :: r) = ys :: splitChar sep r := by
  induction ys with
  | nil => simp [splitChar]
  | cons c cs ih =>
    have hc : c ≠ sep := h c (List.mem_cons_self c cs)
    have ih' := ih (fun d hd => h d (List.mem_cons_of_mem c hd))
    simp [splitChar, hc, ih']

theorem parse_u8_ok_digits (N : List Char) (h1 : N ≠ [])
    (h2 : N.all Char.isDigit = true) :
    parse_u8_ok N = decide (digitsVal N ≤ 255) := by
  cases N with
  | nil => exact absurd rfl h1
  | cons c cs =>
    have hc : c.isDigit = true := by
      simp only [List.all_cons, Bool.and_eq_true] at h2
      exact h2.1
    have hne : c ≠ '+' := by
      intro h
      rw [h] at hc
      exact absurd hc (by decide)
    simp [parse_u8_ok, hne, h2]

theorem normalize_pathL_seg (seg rest : List Char) (hs : ∀ c ∈ seg, c ≠ '/')
    (hr : rest = [] ∨ ∃ r, rest = '/' :: r) :
    normalize_pathL (['/', 'a', 'p', 'i', '/'] ++ (seg ++ rest)) =
      if segIsVersion seg then (['/', 'a', 'p', 'i', '/'] ++ seg, rest)
      else ("/api".data, '/' :: (seg ++ rest)) := by
  have hstrip : stripPre "/api".data (['/', 'a', 'p', 'i', '/'] ++ (seg ++ rest))
      = some ('/' :: (seg ++ rest)) := by
    have he : ['/', 'a', 'p', 'i', '/'] ++ (seg ++ rest)
        = "/api".data ++ ('/' :: (seg ++ rest)) := rfl
    rw [he, stripPre_append]
  have hsplit : (splitChar '/' ('/' :: (seg ++ rest))).get? 1 = some seg := by
    have hhead : splitChar '/' ('/' :: (seg ++ rest))
        = [] :: splitChar '/' (seg ++ rest) := by
      simp [splitChar]
    rcases hr with rfl | ⟨r, rfl⟩
    · rw [hhead, List.append_nil, splitChar_no_sep '/' seg hs]
      rfl
    · rw [hhead, splitChar_append_sep '/' seg r hs]
      rfl
  unfold normalize_pathL
  rw [hstrip]
  simp only
  rw [hsplit]
  cases seg with
  | nil => simp [segIsVersion]
  | cons c nn =>
    by_cases hv : c = 'v' ∧ parse_u8_ok nn = true
    · obtain ⟨rfl, hok⟩ := hv
      have hlen : (['/', 'a', 'p', 'i', '/'] ++ 'v' :: nn).length = 6 + nn.length := by
        simp [List.length_append]
        omega
      have harr : ['/', 'a', 'p', 'i', '/'] ++ ('v' :: nn ++ rest)
          = (['/', 'a', 'p', 'i', '/'] ++ 'v' :: nn) ++ rest := by
        simp [List.append_assoc]
      have htake : (['/', 'a', 'p', 'i', '/'] ++ ('v' :: nn ++ rest)).take (6 + nn.length)
          = ['/', 'a', 'p', 'i', '/'] ++ 'v' :: nn := by
        rw [harr, ← hlen, List.take_left]
      have hdrop : (['/', 'a', 'p', 'i', '/'] ++ ('v' :: nn ++ rest)).drop (6 + nn.length)
          = rest := by
        rw [harr, ← hlen, List.drop_left]
      simp only [segIsVersion, hok, decide_True, Bool.true_and, if_true]
      exact Prod.ext htake hdrop
    · have hcond : (decide (c = 'v') && parse_u8_ok nn) = false := by
        by_cases hc : c = 'v'
        · have hpf : parse_u8_ok nn = false := by
            cases hpf : parse_u8_ok nn
            · rfl
            · exact absurd ⟨hc, hpf⟩ hv
          simp [hpf]
        · simp [hc]
      have hsv : segIsVersion (c :: nn) = false := by
        simp [segIsVersion, hcond]
      simp [hsv, hcond]

/-! ## Claim C4 -/

/-- C4: `normalize_path` maps `/api/v10/foo` to `("/api/v10", "/foo")`,
`/api/foo` to `("/api", "/foo")` and `/foo` to `("/api", "/foo")`; and for a
versioned prefix `/api/vN` with `N` a nonempty digit string, the prefix is
recognised exactly when the value of `N` fits in 8 bits, the unrecognised
segment otherwise staying in the remainder after the returned `/api`. -/
theorem normalize_path_spec :
    normalize_path "/api/v10/foo" = ("/api/v10", "/foo") ∧
    normalize_path "/api/foo" = ("/api", "/foo") ∧
    normalize_path "/foo" = ("/api", "/foo") ∧
    (∀ N rest : List Char, N ≠ [] → N.all Char.isDigit = true →
      (rest = [] ∨ ∃ r, rest = '/' :: r) →
      normalize_pathL ("/api/v".data ++ N ++ rest) =
        if digitsVal N ≤ 255 then ("/api/v".data ++ N, rest)
        else ("/api".data, '/' :: 'v' :: (N ++ rest))) := by
  refine ⟨by decide, by decide, by decide, ?_⟩
  intro N rest h1 h2 hr
  have hseg : ∀ c ∈ 'v' :: N, c ≠ '/' := by
    intro c hc
    rcases List.mem_cons.mp hc with rfl | hc
    · decide
    · have := List.all_eq_true.mp h2 c hc
      intro hcontra
      rw [hcontra] at this
      exact absurd this (by decide)
  have he : "/api/v".data ++ N ++ rest = ['/', 'a', 'p', 'i', '/'] ++ (('v' :: N) ++ rest) := rfl
  rw [he, normalize_pathL_seg ('v' :: N) rest hseg hr]
  have hsv : segIsVersion ('v' :: N) = parse_u8_ok N := by
    simp [segIsVersion]
  rw [hsv, parse_u8_ok_digits N h1 h2]
  by_cases hle : digitsVal N ≤ 255
  · simp [hle]
  · simp [hle]

/-- Witness for C4: the quantified conjunct evaluated at `N = "256"` (does not
fit in 8 bits) and at `N = "9"` (fits). -/
theorem normalize_path_spec_witness :
    normalize_pathL ("/api/v".data ++ ['2', '5', '6'] ++ ['/', 'x']) =
      ("/api".data, '/' :: 'v' :: (['2', '5', '6'] ++ ['/', 'x'])) ∧
    normalize_pathL ("/api/v".data ++ ['9'] ++ []) = ("/api/v".data ++ ['9'], []) := by
  constructor
  · have h := normalize_path_spec.2.2.2 ['2', '5', '6'] ['/', 'x']
      (by decide) (by decide) (Or.inr ⟨['x'], rfl⟩)
    simpa using h
  · have h := normalize_path_spec.2.2.2 ['9'] [] (by decide) (by decide) (Or.inl rfl)
    simpa using h

/-! ## Claim C7 -/

/-- C7: whenever the cache's `get` returns an entry, that entry is present in
the map and its age satisfies `now - cached_at < CACHE_DURATION`; a stale
entry is reported as a miss. -/
theorem cache_get_fresh (m : CacheMap) (key : String) (now dur : Time)
    (b : Bytes) (h : Headers) (s : Nat)
    (hget : cache_get m key now dur = some (b, h, s)) :
    ∃ c, mapGet m key = some c ∧ now - c.cached_at < dur ∧
      c.bytes = b ∧ c.headers = h ∧ c.statuscode = s := by
  unfold cache_get at hget
  cases hm : mapGet m key with
  | none => rw [hm] at hget; exact absurd hget (by simp)
  | some c =>
    rw [hm] at hget
    by_cases hfresh : now - c.cached_at < dur
    · simp only [hfresh, if_true] at hget
      obtain ⟨h1, h2, h3⟩ : c.bytes = b ∧ c.headers = h ∧ c.statuscode = s := by
        simpa using hget
      exact ⟨c, rfl, hfresh, h1, h2, h3⟩
    · simp [hfresh] at hget

/-- Witness for C7: a one-entry map, read two seconds after insertion with a
ten-second TTL. -/
theorem cache_get_fresh_witness :
    ∃ c, mapGet [("/api/v10/users/5", (⟨3, [1], [], 200⟩ : CachedResponse))] "/api/v10/users/5"
        = some c ∧ 5 - c.cached_at < 10 ∧ c.bytes = [1] ∧ c.headers = [] ∧ c.statuscode = 200 :=
  cache_get_fresh [("/api/v10/users/5", ⟨3, [1], [], 200⟩)] "/api/v10/users/5" 5 10
    [1] [] 200 (by decide)

/-! ## Claim C1 -/

/-- C1: the insert-then-get round trip for the invites cache fails in the
source: `Cache::insert_invite` writes the `invites` namespace, but
`Cache::get_invite` reads the `users` namespace (cache.rs:102), so a fresh
invites entry is not returned by an immediate `get_invite` on the same key. -/
theorem insert_invite_get_invite_misses :
    Cache.get_invite
      (Cache.insert_invite ⟨[], []⟩ "/api/v10/invites/abc" [123] [] 200 0)
      "/api/v10/invites/abc" 0 600 = none := by
  decide

/-! ## Characterisation of the pipeline's control flow -/

theorem hr_cases (token : String) (request : HRequest) (cache : Cache)
    (env : Env) (now dur : Time) :
    (methodMap request.method = none ∧
      handle_request token request cache env now dur
        = ⟨.error .InvalidMethod, cache, false, none, none⟩) ∨
    (∃ m, methodMap request.method = some m ∧
      env.classify m (normalize_path request.path).2 = .error () ∧
      handle_request token request cache env now dur
        = ⟨.error .InvalidPath, cache, false, none, none⟩) ∨
    (∃ m p b h s, methodMap request.method = some m ∧
      env.classify m (normalize_path request.path).2 = .ok p ∧
      cachedLookup p cache (apiRouteOf request) now dur = some (b, h, s) ∧
      handle_request token request cache env now dur
        = ⟨.ok ⟨s, replayHeaders h, b⟩, cache, false, none, none⟩) ∨
    (∃ m p, methodMap request.method = some m ∧
      env.classify m (normalize_path request.path).2 = .ok p ∧
      cachedLookup p cache (apiRouteOf request) now dur = none ∧
      env.ticket = .error () ∧
      handle_request token request cache env now dur
        = ⟨.error .AcquiringTicket, cache, true, none, none⟩) ∨
    (∃ m p, methodMap request.method = some m ∧
      env.classify m (normalize_path request.path).2 = .ok p ∧
      cachedLookup p cache (apiRouteOf request) now dur = none ∧
      env.ticket = .ok () ∧
      handle_request token request cache env now dur
        = phase_forward token request m p (apiRouteOf request) cache env now dur) := by
  cases hm : methodMap request.method with
  | none =>
    left
    exact ⟨rfl, by simp [handle_request, hm]⟩
  | some m =>
    cases hc : env.classify m (normalize_path request.path).2 with
    | error e =>
      right; left
      cases e
      exact ⟨m, rfl, hc, by simp [handle_request, hm, hc]⟩
    | ok p =>
      cases hcr : cachedLookup p cache (apiRouteOf request) now dur with
      | some v =>
        obtain ⟨b, hh, s⟩ := v
        right; right; left
        refine ⟨m, p, b, hh, s, rfl, hc, hcr, ?_⟩
        simp only [handle_request, hm, hc]
        rw [show (normalize_path request.path).1 ++ (normalize_path request.path).2
          = apiRouteOf request from rfl, hcr]
      | none =>
        cases ht : env.ticket with
        | error e =>
          right; right; right; left
          cases e
          refine ⟨m, p, rfl, hc, hcr, rfl, ?_⟩
          simp only [handle_request, hm, hc]
          rw [show (normalize_path request.path).1 ++ (normalize_path request.path).2
            = apiRouteOf request from rfl, hcr]
          simp [ht]
        | ok u =>
          cases u
          right; right; right; right
          refine ⟨m, p, rfl, hc, hcr, rfl, ?_⟩
          simp only [handle_request, hm, hc]
          rw [show (normalize_path request.path).1 ++ (normalize_path request.path).2
            = apiRouteOf request from rfl, hcr]
          simp [ht]

theorem pf_cases (token : String) (request : HRequest) (m : Method) (p : Path)
    (api_route : String) (cache : Cache) (env : Env) (now dur : Time) :
    (env.uriParses = false ∧
      phase_forward token request m p api_route cache env now dur
        = ⟨.error .InvalidURI, cache, true, none, some none⟩) ∨
    (env.uriParses = true ∧ env.response = .error () ∧
      phase_forward token request m p api_route cache env now dur
        = ⟨.error .RequestIssue, cache, true,
            some (mkOutReq token request m api_route), some none⟩) ∨
    (∃ resp, env.uriParses = true ∧ env.response = .ok resp ∧
      goodStatus resp.status = false ∧
      phase_forward token request m p api_route cache env now dur
        = ⟨.ok ⟨resp.status, resp.headers, resp.body⟩, cache, true,
            some (mkOutReq token request m api_route),
            some (env.parseRL resp.headers)⟩) ∨
    (∃ resp, env.uriParses = true ∧ env.response = .ok resp ∧
      goodStatus resp.status = true ∧ env.bodyReadOk = false ∧
      phase_forward token request m p api_route cache env now dur
        = ⟨.error .RequestIssue, cache, true,
            some (mkOutReq token request m api_route),
            some (env.parseRL resp.headers)⟩) ∨
    (∃ resp, env.uriParses = true ∧ env.response = .ok resp ∧
      goodStatus resp.status = true ∧ env.bodyReadOk = true ∧
      phase_forward token request m p api_route cache env now dur
        = ⟨.ok ⟨resp.status, resp.headers, resp.body⟩,
            cacheWrite p api_route resp cache now, true,
            some (mkOutReq token request m api_route),
            some (env.parseRL resp.headers)⟩) := by
  cases hu : env.uriParses with
  | false =>
    left
    exact ⟨rfl, by simp [phase_forward, hu]⟩
  | true =>
    cases hresp : env.response with
    | error e =>
      right; left
      cases e
      exact ⟨rfl, rfl, by simp [phase_forward, hu, hresp]⟩
    | ok resp =>
      cases hst : goodStatus resp.status with
      | false =>
        right; right; left
        exact ⟨resp, rfl, rfl, hst, by simp [phase_forward, hu, hresp, hst]⟩
      | true =>
        cases hb : env.bodyReadOk with
        | false =>
          right; right; right; left
          exact ⟨resp, rfl, rfl, hst, rfl, by simp [phase_forward, hu, hresp, hst, hb]⟩
        | true =>
          right; right; right; right
          exact ⟨resp, rfl, rfl, hst, rfl, by simp [phase_forward, hu, hresp, hst, hb]⟩


/-! ## Header-map lemmas -/

theorem hmGet_remove_self (k : String) (h : Headers) :
    hmGet k (hmRemove k h) = none := by
  induction h with
  | nil => rfl
  | cons a t ih =>
    by_cases hak : a.1 = k
    · have he : hmRemove k (a :: t) = hmRemove k t := by
        simp [hmRemove, hak]
      rw [he]
      exact ih
    · have he : hmRemove k (a :: t) = a :: hmRemove k t := by
        simp [hmRemove, hak]
      rw [he]
      simp only [hmGet, List.find?]
      have : (a.1 == k) = false := by simpa using hak
      rw [this]
      exact ih

theorem hmGet_remove_ne (k kx : String) (hk : k ≠ kx) (h : Headers) :
    hmGet k (hmRemove kx h) = hmGet k h := by
  induction h with
  | nil => rfl
  | cons a t ih =>
    by_cases hak : a.1 = kx
    · have he : hmRemove kx (a :: t) = hmRemove kx t := by
        simp [hmRemove, hak]
      have hne : (a.1 == k) = false := by
        subst hak
        simpa using fun hcontra => hk hcontra.symm
      rw [he, ih]
      simp only [hmGet, List.find?, hne]
    · have he : hmRemove kx (a :: t) = a :: hmRemove kx t := by
        simp [hmRemove, hak]
      rw [he]
      simp only [hmGet, List.find?]
      cases hbe : (a.1 == k) with
      | true => rfl
      | false => exact ih

theorem hmGet_insert_self (k v : String) (h : Headers) :
    hmGet k (hmInsert k v h) = some v := by
  simp [hmInsert, hmGet, List.find?]

theorem hmGet_insert_ne (k kx v : String) (hk : k ≠ kx) (h : Headers) :
    hmGet k (hmInsert kx v h) = hmGet k h := by
  have hne : (kx == k) = false := by
    simpa using fun hcontra => hk hcontra.symm
  simp only [hmInsert, hmGet, List.find?, hne]
  exact congrArg (Option.map _) (congrArg _ rfl) |>.trans
    (by simpa [hmGet] using hmGet_remove_ne k kx hk h)

theorem hmAll_remove_ne (k kx : String) (hk : k ≠ kx) (h : Headers) :
    hmAll k (hmRemove kx h) = hmAll k h := by
  induction h with
  | nil => rfl
  | cons a t ih =>
    by_cases hak : a.1 = kx
    · have he : hmRemove kx (a :: t) = hmRemove kx t := by
        simp [hmRemove, hak]
      have hne : (a.1 == k) = false := by
        subst hak
        simpa using fun hcontra => hk hcontra.symm
      rw [he, ih]
      simp [hmAll, hne]
    · have he : hmRemove kx (a :: t) = a :: hmRemove kx t := by
        simp [hmRemove, hak]
      rw [he]
      simp only [hmAll, List.filter]
      cases hbe : (a.1 == k) with
      | true => rw [← hmAll, ← hmAll, ih]
      | false => rw [← hmAll, ← hmAll, ih]

theorem hmAll_insert_ne (k kx v : String) (hk : k ≠ kx) (h : Headers) :
    hmAll k (hmInsert kx v h) = hmAll k h := by
  have hne : (kx == k) = false := by
    simpa using fun hcontra => hk hcontra.symm
  simp only [hmInsert, hmAll, List.filter, hne]
  exact hmAll_remove_ne k kx hk h

theorem rewriteHeaders_auth (token : String) (h : Headers) :
    hmGet "authorization" (rewriteHeaders token h) = some token := by
  unfold rewriteHeaders
  rw [hmGet_remove_ne _ _ (by decide) _, hmGet_remove_ne _ _ (by decide) _,
    hmGet_remove_ne _ _ (by decide) _, hmGet_remove_ne _ _ (by decide) _,
    hmGet_remove_ne _ _ (by decide) _, hmGet_insert_ne _ _ _ (by decide) _,
    hmGet_insert_self]

theorem rewriteHeaders_host (token : String) (h : Headers) :
    hmGet "host" (rewriteHeaders token h) = some "discord.com" := by
  unfold rewriteHeaders
  rw [hmGet_remove_ne _ _ (by decide) _, hmGet_remove_ne _ _ (by decide) _,
    hmGet_remove_ne _ _ (by decide) _, hmGet_remove_ne _ _ (by decide) _,
    hmGet_remove_ne _ _ (by decide) _, hmGet_insert_self]

theorem rewriteHeaders_removed (token : String) (h : Headers) :
    hmGet "connection" (rewriteHeaders token h) = none ∧
    hmGet "keep-alive" (rewriteHeaders token h) = none ∧
    hmGet "proxy-connection" (rewriteHeaders token h) = none ∧
    hmGet "transfer-encoding" (rewriteHeaders token h) = none ∧
    hmGet "upgrade" (rewriteHeaders token h) = none := by
  unfold rewriteHeaders
  refine ⟨?_, ?_, ?_, ?_, ?_⟩
  · rw [hmGet_remove_ne _ _ (by decide) _, hmGet_remove_ne _ _ (by decide) _,
      hmGet_remove_ne _ _ (by decide) _, hmGet_remove_ne _ _ (by decide) _,
      hmGet_remove_self]
  · rw [hmGet_remove_ne _ _ (by decide) _, hmGet_remove_ne _ _ (by decide) _,
      hmGet_remove_ne _ _ (by decide) _, hmGet_remove_self]
  · rw [hmGet_remove_ne _ _ (by decide) _, hmGet_remove_ne _ _ (by decide) _,
      hmGet_remove_self]
  · rw [hmGet_remove_ne _ _ (by decide) _, hmGet_remove_self]
  · rw [hmGet_remove_self]

theorem rewriteHeaders_frame (token : String) (h : Headers) (n : String)
    (hn : n ∉ ["authorization", "host", "connection", "keep-alive",
      "proxy-connection", "transfer-encoding", "upgrade"]) :
    hmAll n (rewriteHeaders token h) = hmAll n h := by
  simp only [List.mem_cons, List.mem_singleton, not_or] at hn
  obtain ⟨n1, n2, n3, n4, n5, n6, n7, -⟩ := hn
  unfold rewriteHeaders
  rw [hmAll_remove_ne _ _ n7 _, hmAll_remove_ne _ _ n6 _, hmAll_remove_ne _ _ n5 _,
    hmAll_remove_ne _ _ n4 _, hmAll_remove_ne _ _ n3 _, hmAll_insert_ne _ _ _ n2 _,
    hmAll_insert_ne _ _ _ n1 _]


/-! ## Cache-invariant helpers -/

theorem all_filter_of_all {A : Type} (l : List A) (f q : A → Bool)
    (hl : l.all f = true) : (l.filter q).all f = true := by
  apply List.all_eq_true.mpr
  intro x hx
  exact List.all_eq_true.mp hl x (List.mem_of_mem_filter hx)

theorem noBucketHeaders_stripRL (h : Headers) :
    noBucketHeaders (stripRL h) = true := by
  apply List.all_eq_true.mpr
  intro p hp
  simp only [stripRL, hmRemove, List.mem_filter] at hp
  obtain ⟨⟨⟨⟨-, h4⟩, h3⟩, h2⟩, h1⟩ := hp
  simp only [bne_iff_ne, ne_eq] at h1 h2 h3 h4
  simp [bucketNames, h1, h2, h3, h4]

theorem noBucketCache_cacheWrite (p : Path) (a : String) (resp : UpstreamResp)
    (cache : Cache) (now : Time) (hc : noBucketCache cache = true) :
    noBucketCache (cacheWrite p a resp cache now) = true := by
  simp only [noBucketCache, Bool.and_eq_true] at hc
  obtain ⟨hu, hi⟩ := hc
  cases p with
  | InvitesCode =>
    simp only [cacheWrite, noBucketCache, cache_insert, mapInsert, List.all_cons,
      Bool.and_eq_true]
    exact ⟨hu, noBucketHeaders_stripRL _, all_filter_of_all _ _ _ hi⟩
  | UsersId =>
    by_cases hme : strContains a "@me" = true
    · simp [cacheWrite, hme, noBucketCache, hu, hi]
    · have hme2 : strContains a "@me" = false := by
        cases hx : strContains a "@me"
        · rfl
        · exact absurd hx hme
      simp only [cacheWrite, hme2, Bool.false_eq_true, if_false, noBucketCache,
        cache_insert, mapInsert, List.all_cons, Bool.and_eq_true]
      exact ⟨⟨noBucketHeaders_stripRL _, all_filter_of_all _ _ _ hu⟩, hi⟩
  | OtherPath t =>
    simp [cacheWrite, noBucketCache, hu, hi]

theorem usersKeysClean_cacheWrite (p : Path) (a : String) (resp : UpstreamResp)
    (cache : Cache) (now : Time) (hc : usersKeysClean cache = true) :
    usersKeysClean (cacheWrite p a resp cache now) = true := by
  cases p with
  | InvitesCode =>
    simpa [cacheWrite, usersKeysClean] using hc
  | UsersId =>
    by_cases hme : strContains a "@me" = true
    · simpa [cacheWrite, hme, usersKeysClean] using hc
    · have hme2 : strContains a "@me" = false := by
        cases hx : strContains a "@me"
        · rfl
        · exact absurd hx hme
      simp only [cacheWrite, hme2, Bool.false_eq_true, if_false, usersKeysClean,
        cache_insert, mapInsert, List.all_cons, Bool.and_eq_true]
      exact ⟨by simp [hme2], all_filter_of_all _ _ _ hc⟩
  | OtherPath t =>
    simpa [cacheWrite, usersKeysClean] using hc

/-! ## Claim C8 -/

/-- C8: a request whose method is none of GET, PUT, POST, PATCH, DELETE is
rejected with `InvalidMethod` before classification: no ticket is requested,
no upstream request is issued, the cache is untouched, and the outcome does
not depend on any external collaborator. -/
theorem invalid_method_rejected_early (token : String) (request : HRequest)
    (cache : Cache) (env env2 : Env) (now dur : Time)
    (h1 : request.method ≠ .GET) (h2 : request.method ≠ .PUT)
    (h3 : request.method ≠ .POST) (h4 : request.method ≠ .PATCH)
    (h5 : request.method ≠ .DELETE) :
    (handle_request token request cache env now dur).result
      = .error .InvalidMethod ∧
    (handle_request token request cache env now dur).ticketRequested = false ∧
    (handle_request token request cache env now dur).upstream = none ∧
    (handle_request token request cache env now dur).cache = cache ∧
    handle_request token request cache env now dur
      = handle_request token request cache env2 now dur := by
  have hm : methodMap request.method = none := by
    cases hme : request.method <;> simp_all [methodMap]
  simp [handle_request, hm]

/-- Witness for C8: `OPTIONS /api/v10/guilds/1` in a benign environment. -/
theorem invalid_method_rejected_early_witness :
    (handle_request "t" wReqOpt ⟨[], []⟩ wEnvBase 0 600).result
      = .error .InvalidMethod ∧
    (handle_request "t" wReqOpt ⟨[], []⟩ wEnvBase 0 600).ticketRequested = false ∧
    (handle_request "t" wReqOpt ⟨[], []⟩ wEnvBase 0 600).upstream = none := by
  have h := invalid_method_rejected_early "t" wReqOpt ⟨[], []⟩ wEnvBase wEnvBase 0 600
    (by decide) (by decide) (by decide) (by decide) (by decide)
  exact ⟨h.1, h.2.1, h.2.2.1⟩

/-! ## Claim C3 -/

/-- C3: on a fresh cache hit — route `InvitesCode`, or `UsersId` whose
canonical route does not contain `@me` — the pipeline replies from the stored
`(bytes, headers, status)` triple and returns without requesting a ticket,
without contacting the upstream, and without changing the cache. -/
theorem cache_hit_skips_ticket_and_upstream (token : String) (request : HRequest)
    (cache : Cache) (env : Env) (now dur : Time) (m : Method)
    (b : Bytes) (h : Headers) (s : Nat)
    (hm : methodMap request.method = some m)
    (hcase :
      (env.classify m (normalize_path request.path).2 = .ok .InvitesCode ∧
        cache.get_invite (apiRouteOf request) now dur = some (b, h, s)) ∨
      (env.classify m (normalize_path request.path).2 = .ok .UsersId ∧
        strContains (apiRouteOf request) "@me" = false ∧
        cache.get_user (apiRouteOf request) now dur = some (b, h, s))) :
    (handle_request token request cache env now dur).result
      = .ok ⟨s, replayHeaders h, b⟩ ∧
    (handle_request token request cache env now dur).ticketRequested = false ∧
    (handle_request token request cache env now dur).upstream = none ∧
    (handle_request token request cache env now dur).cache = cache := by
  have hlookup : ∃ p, env.classify m (normalize_path request.path).2 = .ok p ∧
      cachedLookup p cache (apiRouteOf request) now dur = some (b, h, s) := by
    rcases hcase with ⟨hc, hg⟩ | ⟨hc, hme, hg⟩
    · exact ⟨.InvitesCode, hc, by simpa [cachedLookup] using hg⟩
    · exact ⟨.UsersId, hc, by simpa [cachedLookup, hme] using hg⟩
  obtain ⟨p, hc, hg⟩ := hlookup
  have heq : handle_request token request cache env now dur
      = ⟨.ok ⟨s, replayHeaders h, b⟩, cache, false, none, none⟩ := by
    simp only [handle_request, hm, hc]
    rw [show (normalize_path request.path).1 ++ (normalize_path request.path).2
      = apiRouteOf request from rfl, hg]
  rw [heq]
  exact ⟨rfl, rfl, rfl, rfl⟩

/-- Witness for C3: a fresh `users` entry for `GET /api/v9/users/111` is
replayed without a ticket. -/
theorem cache_hit_skips_ticket_and_upstream_witness :
    (handle_request "t" wReqUser wCacheUser wEnvUsers 1 600).result
      = .ok ⟨200, [("a", "b")], [7]⟩ ∧
    (handle_request "t" wReqUser wCacheUser wEnvUsers 1 600).ticketRequested
      = false ∧
    (handle_request "t" wReqUser wCacheUser wEnvUsers 1 600).upstream = none := by
  have h := cache_hit_skips_ticket_and_upstream "t" wReqUser wCacheUser wEnvUsers
    1 600 .get [7] [("a", "b")] 200 (by decide)
    (Or.inr ⟨rfl, by decide, by decide⟩)
  exact ⟨h.1, h.2.1, h.2.2.1⟩

/-! ## Claim C2 -/

/-- C2: when a ticket was acquired and the forward fails at the transport
level, the pipeline fails with `RequestIssue` and the ratelimiter observes
exactly one completion signal for the ticket, carrying no headers (the
dropped sender's closed channel); the cache is untouched. -/
theorem transport_failure_reports_none (token : String) (request : HRequest)
    (cache : Cache) (env : Env) (now dur : Time) (out : OutRequest)
    (herr : env.response = .error ())
    (h : (handle_request token request cache env now dur).upstream = some out) :
    (handle_request token request cache env now dur).result
      = .error .RequestIssue ∧
    (handle_request token request cache env now dur).ticketSignal = some none ∧
    (handle_request token request cache env now dur).cache = cache := by
  rcases hr_cases token request cache env now dur with
    ⟨-, heq⟩ | ⟨m, -, -, heq⟩ | ⟨m, p, b, hh, s, -, -, -, heq⟩ |
    ⟨m, p, -, -, -, -, heq⟩ | ⟨m, p, -, -, -, -, heq⟩
  · rw [heq] at h; exact absurd h (by simp)
  · rw [heq] at h; exact absurd h (by simp)
  · rw [heq] at h; exact absurd h (by simp)
  · rw [heq] at h; exact absurd h (by simp)
  · rcases pf_cases token request m p (apiRouteOf request) cache env now dur with
      ⟨-, hpf⟩ | ⟨-, -, hpf⟩ | ⟨resp, -, hresp, -, hpf⟩ |
      ⟨resp, -, hresp, -, -, hpf⟩ | ⟨resp, -, hresp, -, -, hpf⟩
    · rw [heq, hpf] at h; exact absurd h (by simp)
    · rw [heq, hpf]; exact ⟨rfl, rfl, rfl⟩
    · rw [herr] at hresp; exact absurd hresp (by simp)
    · rw [herr] at hresp; exact absurd hresp (by simp)
    · rw [herr] at hresp; exact absurd hresp (by simp)

/-- Witness for C2: a `GET /x` whose upstream call fails. -/
theorem transport_failure_reports_none_witness :
    (handle_request "Bot T" wReqC9 ⟨[], []⟩ wEnvErr 0 600).result
      = .error .RequestIssue ∧
    (handle_request "Bot T" wReqC9 ⟨[], []⟩ wEnvErr 0 600).ticketSignal
      = some none := by
  have h := transport_failure_reports_none "Bot T" wReqC9 ⟨[], []⟩ wEnvErr 0 600
    wOut rfl rfl
  exact ⟨h.1, h.2.1⟩

/-! ## Claim C9 -/

/-- C9: every upstream request the pipeline issues preserves the inbound
method, body and query, targets `https://discord.com` + canonical route +
query, carries `authorization` = the effective bearer and `host` =
`discord.com`, has the five hop-by-hop and upgrade headers removed, and
leaves the values of every other header name unchanged. -/
theorem forwarded_request_contract (token : String) (request : HRequest)
    (cache : Cache) (env : Env) (now dur : Time) (out : OutRequest)
    (h : (handle_request token request cache env now dur).upstream = some out) :
    (∃ m, methodMap request.method = some m ∧ out.method = m) ∧
    out.body = request.body ∧
    out.uri = "https://discord.com" ++ apiRouteOf request ++ queryPart request.query ∧
    hmGet "authorization" out.headers = some token ∧
    hmGet "host" out.headers = some "discord.com" ∧
    hmGet "connection" out.headers = none ∧
    hmGet "keep-alive" out.headers = none ∧
    hmGet "proxy-connection" out.headers = none ∧
    hmGet "transfer-encoding" out.headers = none ∧
    hmGet "upgrade" out.headers = none ∧
    (∀ n : String, n ∉ ["authorization", "host", "connection", "keep-alive",
        "proxy-connection", "transfer-encoding", "upgrade"] →
      hmAll n out.headers = hmAll n request.headers) := by
  have hout : ∃ m, methodMap request.method = some m ∧
      out = mkOutReq token request m (apiRouteOf request) := by
    rcases hr_cases token request cache env now dur with
      ⟨-, heq⟩ | ⟨m, -, -, heq⟩ | ⟨m, p, b, hh, s, -, -, -, heq⟩ |
      ⟨m, p, -, -, -, -, heq⟩ | ⟨m, p, hm, -, -, -, heq⟩
    · rw [heq] at h; exact absurd h (by simp)
    · rw [heq] at h; exact absurd h (by simp)
    · rw [heq] at h; exact absurd h (by simp)
    · rw [heq] at h; exact absurd h (by simp)
    · rcases pf_cases token request m p (apiRouteOf request) cache env now dur with
        ⟨-, hpf⟩ | ⟨-, -, hpf⟩ | ⟨resp, -, -, -, hpf⟩ |
        ⟨resp, -, -, -, -, hpf⟩ | ⟨resp, -, -, -, -, hpf⟩
      · rw [heq, hpf] at h; exact absurd h (by simp)
      · rw [heq, hpf] at h
        exact ⟨m, hm, by simpa using h.symm⟩
      · rw [heq, hpf] at h
        exact ⟨m, hm, by simpa using h.symm⟩
      · rw [heq, hpf] at h
        exact ⟨m, hm, by simpa using h.symm⟩
      · rw [heq, hpf] at h
        exact ⟨m, hm, by simpa using h.symm⟩
  obtain ⟨m, hm, rfl⟩ := hout
  refine ⟨⟨m, hm, rfl⟩, rfl, rfl, ?_, ?_, ?_, ?_, ?_, ?_, ?_, ?_⟩
  · exact rewriteHeaders_auth token request.headers
  · exact rewriteHeaders_host token request.headers
  · exact (rewriteHeaders_removed token request.headers).1
  · exact (rewriteHeaders_removed token request.headers).2.1
  · exact (rewriteHeaders_removed token request.headers).2.2.1
  · exact (rewriteHeaders_removed token request.headers).2.2.2.1
  · exact (rewriteHeaders_removed token request.headers).2.2.2.2
  · intro n hn
    exact rewriteHeaders_frame token request.headers n hn

/-- Witness for C9: the rewritten request for `GET /x?a=1`. -/
theorem forwarded_request_contract_witness :
    hmGet "authorization" wOut.headers = some "Bot T" ∧
    hmGet "connection" wOut.headers = none ∧
    wOut.uri = "https://discord.com" ++ apiRouteOf wReqC9 ++ queryPart wReqC9.query ∧
    hmAll "x-foo" wOut.headers = hmAll "x-foo" wReqC9.headers := by
  have h := forwarded_request_contract "Bot T" wReqC9 ⟨[], []⟩ wEnvErr 0 600 wOut rfl
  exact ⟨h.2.2.2.1, h.2.2.2.2.2.1, h.2.2.1, h.2.2.2.2.2.2.2.2.2.2 "x-foo" (by decide)⟩


/-! ## Claim C5 -/

/-- C5: every headers map stored into either cache namespace is free of the
four `x-ratelimit-*` bookkeeping headers (an invariant preserved by every
`handle_request` run), while the response returned to the client after the
body is buffered — in particular after a write-through — carries the
original, pre-strip upstream headers. -/
theorem cached_headers_stripped_and_reply_original (token : String)
    (request : HRequest) (cache : Cache) (env : Env) (now dur : Time) :
    (noBucketCache cache = true →
      noBucketCache (handle_request token request cache env now dur).cache
        = true) ∧
    (∀ resp : UpstreamResp, env.response = .ok resp →
      goodStatus resp.status = true → env.bodyReadOk = true →
      (handle_request token request cache env now dur).upstream.isSome = true →
      (handle_request token request cache env now dur).result
        = .ok ⟨resp.status, resp.headers, resp.body⟩) := by
  constructor
  · intro hclean
    rcases hr_cases token request cache env now dur with
      ⟨-, heq⟩ | ⟨m, -, -, heq⟩ | ⟨m, p, b, hh, s, -, -, -, heq⟩ |
      ⟨m, p, -, -, -, -, heq⟩ | ⟨m, p, -, -, -, -, heq⟩
    · rw [heq]; exact hclean
    · rw [heq]; exact hclean
    · rw [heq]; exact hclean
    · rw [heq]; exact hclean
    · rcases pf_cases token request m p (apiRouteOf request) cache env now dur with
        ⟨-, hpf⟩ | ⟨-, -, hpf⟩ | ⟨resp, -, -, -, hpf⟩ |
        ⟨resp, -, -, -, -, hpf⟩ | ⟨resp, -, -, -, -, hpf⟩
      · rw [heq, hpf]; exact hclean
      · rw [heq, hpf]; exact hclean
      · rw [heq, hpf]; exact hclean
      · rw [heq, hpf]; exact hclean
      · rw [heq, hpf]
        exact noBucketCache_cacheWrite p (apiRouteOf request) resp cache now hclean
  · intro resp hresp hst hb hup
    rcases hr_cases token request cache env now dur with
      ⟨-, heq⟩ | ⟨m, -, -, heq⟩ | ⟨m, p, b, hh, s, -, -, -, heq⟩ |
      ⟨m, p, -, -, -, -, heq⟩ | ⟨m, p, -, -, -, -, heq⟩
    · rw [heq] at hup; simp at hup
    · rw [heq] at hup; simp at hup
    · rw [heq] at hup; simp at hup
    · rw [heq] at hup; simp at hup
    · rcases pf_cases token request m p (apiRouteOf request) cache env now dur with
        ⟨-, hpf⟩ | ⟨-, herr2, hpf⟩ | ⟨resp2, -, hresp2, hst2, hpf⟩ |
        ⟨resp2, -, hresp2, hst2, hb2, hpf⟩ | ⟨resp2, -, hresp2, -, -, hpf⟩
      · rw [heq, hpf] at hup; simp at hup
      · rw [hresp] at herr2; exact absurd herr2 (by simp)
      · rw [hresp] at hresp2
        injection hresp2 with h2
        subst h2
        rw [hst] at hst2
        exact absurd hst2 (by simp)
      · rw [hresp] at hresp2
        injection hresp2 with h2
        subst h2
        rw [hb] at hb2
        exact absurd hb2 (by simp)
      · rw [hresp] at hresp2
        injection hresp2 with h2
        subst h2
        rw [heq, hpf]

/-- Witness for C5: an invites write-through of a `200` response whose
headers contain `x-ratelimit-bucket`. -/
theorem cached_headers_stripped_and_reply_original_witness :
    noBucketCache (handle_request "Bot T" wReqC9 ⟨[], []⟩ wEnvInv 0 600).cache
      = true ∧
    (handle_request "Bot T" wReqC9 ⟨[], []⟩ wEnvInv 0 600).result
      = .ok ⟨wResp.status, wResp.headers, wResp.body⟩ := by
  have h := cached_headers_stripped_and_reply_original "Bot T" wReqC9 ⟨[], []⟩
    wEnvInv 0 600
  exact ⟨h.1 (by decide), h.2 wResp rfl (by decide) rfl rfl⟩

/-! ## Claim C6 -/

/-- C6: the `invites` namespace changes only for route `InvitesCode` and the
`users` namespace only for route `UsersId` with a canonical route free of
`@me`, in both cases only for a `2xx`-or-`404` upstream response, the new
entry being the stripped snapshot under the canonical-route key; consequently
`users` keys never containing `@me` is preserved; no other route writes. -/
theorem cache_insert_only_cacheable_routes (token : String) (request : HRequest)
    (cache : Cache) (env : Env) (now dur : Time) :
    ((handle_request token request cache env now dur).cache.invites
        ≠ cache.invites →
      ∃ m resp, methodMap request.method = some m ∧
        env.classify m (normalize_path request.path).2 = .ok .InvitesCode ∧
        env.response = .ok resp ∧ goodStatus resp.status = true ∧
        (handle_request token request cache env now dur).cache.invites
          = cache_insert cache.invites (apiRouteOf request) resp.body
              (stripRL resp.headers) resp.status now) ∧
    ((handle_request token request cache env now dur).cache.users
        ≠ cache.users →
      ∃ m resp, methodMap request.method = some m ∧
        env.classify m (normalize_path request.path).2 = .ok .UsersId ∧
        strContains (apiRouteOf request) "@me" = false ∧
        env.response = .ok resp ∧ goodStatus resp.status = true ∧
        (handle_request token request cache env now dur).cache.users
          = cache_insert cache.users (apiRouteOf request) resp.body
              (stripRL resp.headers) resp.status now) ∧
    (usersKeysClean cache = true →
      usersKeysClean (handle_request token request cache env now dur).cache
        = true) := by
  refine ⟨?_, ?_, ?_⟩
  · intro hne
    rcases hr_cases token request cache env now dur with
      ⟨-, heq⟩ | ⟨m, -, -, heq⟩ | ⟨m, p, b, hh, s, -, -, -, heq⟩ |
      ⟨m, p, -, -, -, -, heq⟩ | ⟨m, p, hm, hc, -, -, heq⟩
    · rw [heq] at hne; simp at hne
    · rw [heq] at hne; simp at hne
    · rw [heq] at hne; simp at hne
    · rw [heq] at hne; simp at hne
    · rcases pf_cases token request m p (apiRouteOf request) cache env now dur with
        ⟨-, hpf⟩ | ⟨-, -, hpf⟩ | ⟨resp, -, -, -, hpf⟩ |
        ⟨resp, -, -, -, -, hpf⟩ | ⟨resp, -, hresp, hst, -, hpf⟩
      · rw [heq, hpf] at hne; simp at hne
      · rw [heq, hpf] at hne; simp at hne
      · rw [heq, hpf] at hne; simp at hne
      · rw [heq, hpf] at hne; simp at hne
      · cases p with
        | InvitesCode =>
          refine ⟨m, resp, hm, hc, hresp, hst, ?_⟩
          rw [heq, hpf]
          simp [cacheWrite]
        | UsersId =>
          by_cases hme : strContains (apiRouteOf request) "@me" = true
          · rw [heq, hpf] at hne
            simp [cacheWrite, hme] at hne
          · have hme2 : strContains (apiRouteOf request) "@me" = false := by
              cases hx : strContains (apiRouteOf request) "@me"
              · rfl
              · exact absurd hx hme
            rw [heq, hpf] at hne
            simp [cacheWrite, hme2] at hne
        | OtherPath t =>
          rw [heq, hpf] at hne
          simp [cacheWrite] at hne
  · intro hne
    rcases hr_cases token request cache env now dur with
      ⟨-, heq⟩ | ⟨m, -, -, heq⟩ | ⟨m, p, b, hh, s, -, -, -, heq⟩ |
      ⟨m, p, -, -, -, -, heq⟩ | ⟨m, p, hm, hc, -, -, heq⟩
    · rw [heq] at hne; simp at hne
    · rw [heq] at hne; simp at hne
    · rw [heq] at hne; simp at hne
    · rw [heq] at hne; simp at hne
    · rcases pf_cases token request m p (apiRouteOf request) cache env now dur with
        ⟨-, hpf⟩ | ⟨-, -, hpf⟩ | ⟨resp, -, -, -, hpf⟩ |
        ⟨resp, -, -, -, -, hpf⟩ | ⟨resp, -, hresp, hst, -, hpf⟩
      · rw [heq, hpf] at hne; simp at hne
      · rw [heq, hpf] at hne; simp at hne
      · rw [heq, hpf] at hne; simp at hne
      · rw [heq, hpf] at hne; simp at hne
      · cases p with
        | InvitesCode =>
          rw [heq, hpf] at hne
          simp [cacheWrite] at hne
        | UsersId =>
          by_cases hme : strContains (apiRouteOf request) "@me" = true
          · rw [heq, hpf] at hne
            simp [cacheWrite, hme] at hne
          · have hme2 : strContains (apiRouteOf request) "@me" = false := by
              cases hx : strContains (apiRouteOf request) "@me"
              · rfl
              · exact absurd hx hme
            refine ⟨m, resp, hm, hc, hme2, hresp, hst, ?_⟩
            rw [heq, hpf]
            simp [cacheWrite, hme2]
        | OtherPath t =>
          rw [heq, hpf] at hne
          simp [cacheWrite] at hne
  · intro hclean
    rcases hr_cases token request cache env now dur with
      ⟨-, heq⟩ | ⟨m, -, -, heq⟩ | ⟨m, p, b, hh, s, -, -, -, heq⟩ |
      ⟨m, p, -, -, -, -, heq⟩ | ⟨m, p, -, -, -, -, heq⟩
    · rw [heq]; exact hclean
    · rw [heq]; exact hclean
    · rw [heq]; exact hclean
    · rw [heq]; exact hclean
    · rcases pf_cases token request m p (apiRouteOf request) cache env now dur with
        ⟨-, hpf⟩ | ⟨-, -, hpf⟩ | ⟨resp, -, -, -, hpf⟩ |
        ⟨resp, -, -, -, -, hpf⟩ | ⟨resp, -, -, -, -, hpf⟩
      · rw [heq, hpf]; exact hclean
      · rw [heq, hpf]; exact hclean
      · rw [heq, hpf]; exact hclean
      · rw [heq, hpf]; exact hclean
      · rw [heq, hpf]
        exact usersKeysClean_cacheWrite p (apiRouteOf request) resp cache now hclean

/-- Witness for C6: the invites write-through for `GET /x` classified as
`InvitesCode` changes the `invites` namespace and keeps `users` clean. -/
theorem cache_insert_only_cacheable_routes_witness :
    (∃ m resp, methodMap wReqC9.method = some m ∧
      (wEnvInv.classify m (normalize_path wReqC9.path).2) = .ok .InvitesCode ∧
      wEnvInv.response = .ok resp ∧ goodStatus resp.status = true ∧
      (handle_request "Bot T" wReqC9 ⟨[], []⟩ wEnvInv 0 600).cache.invites
        = cache_insert ([] : CacheMap) (apiRouteOf wReqC9) resp.body
            (stripRL resp.headers) resp.status 0) ∧
    usersKeysClean (handle_request "Bot T" wReqC9 ⟨[], []⟩ wEnvInv 0 600).cache
      = true := by
  have h := cache_insert_only_cacheable_routes "Bot T" wReqC9 ⟨[], []⟩ wEnvInv 0 600
  exact ⟨h.1 (by decide), h.2.2 (by decide)⟩

/-! ## Claim C10 -/

/-- C10 counterexample: `POST /health` is not one of the proxy-owned
combinations `GET /health`, `GET /metrics`, yet the service does not forward
it — dispatch looks at the path only, so it gets the health response. -/
theorem post_health_not_forwarded :
    serve false ⟨.POST, "/health", none, [], []⟩ = Dispatch.health ∧
    serve false ⟨.POST, "/health", none, [], []⟩ ≠ Dispatch.forward := by
  decide

/-- C10 (amended): `GET /health` — indeed any method on path `/health` — gets
the health response, status 200 with body `Proxy running!`; dispatch is by
path alone: a request is forwarded exactly when its path is neither
`/health` nor (when metrics are compiled in) `/metrics`. -/
theorem dispatch_by_path_and_health_ok (me : Bool) (request : HRequest) :
    (request.path = "/health" → serve me request = .health) ∧
    (serve me request = .forward ↔
      request.path ≠ "/health" ∧ (me = true → request.path ≠ "/metrics")) ∧
    handle_health.status = 200 ∧
    handle_health.body = strBytes "Proxy running!" := by
  refine ⟨?_, ?_, rfl, rfl⟩
  · intro hp
    cases me <;> simp [serve, hp]
  · cases me <;> by_cases hp2 : request.path = "/health" <;>
      by_cases hp1 : request.path = "/metrics" <;> simp_all [serve]

/-- Witness for C10's amended theorem: `GET /health` is answered by the
health handler; `GET /api/v10/users/1` is forwarded. -/
theorem dispatch_by_path_and_health_ok_witness :
    serve false ⟨.GET, "/health", none, [], []⟩ = Dispatch.health ∧
    serve false ⟨.GET, "/api/v10/users/1", none, [], []⟩ = Dispatch.forward := by
  constructor
  · exact (dispatch_by_path_and_health_ok false ⟨.GET, "/health", none, [], []⟩).1 rfl
  · exact (dispatch_by_path_and_health_ok false
      ⟨.GET, "/api/v10/users/1", none, [], []⟩).2.1.mpr ⟨by decide, by simp⟩

end HttpProxy
